import Mathlib

/-!
Verification of the sjek authorization core against its specification.

The Go source is shallowly embedded: database tables become lists of rows,
`gorm` queries become list searches/filters, UUIDs become `Nat` identifiers,
timestamps become `Nat` instants, and the JWT primitives (which live in a
third-party library, not in this repository) are abstracted as function
parameters `verify`/`decode`.
-/

/-! ## Data model (internal/models) -/

/-- Embeds `models.UserToken` (session row): id, user_id, token string,
expires_at, is_active.  Origin metadata and timestamps other than the
expiry are irrelevant to the verified properties and omitted. -/
structure UserToken where
  id : Nat
  userId : Nat
  token : String
  expiresAt : Nat
  isActive : Bool
deriving DecidableEq, Repr

/-- Embeds `models.API` (permission entry): id, path, method, description. -/
structure API where
  id : Nat
  path : String
  method : String
  description : String
deriving DecidableEq, Repr

/-- Embeds `models.Role`: id and unique name. -/
structure Role where
  id : Nat
  name : String
deriving DecidableEq, Repr

/-- One row of the `map_role_api` many-to-many join table. -/
structure MapRoleApi where
  roleId : Nat
  apiId : Nat
deriving DecidableEq, Repr

/-- One row of the `map_role_menu` many-to-many join table. -/
structure MapRoleMenu where
  roleId : Nat
  menuId : Nat
deriving DecidableEq, Repr

/-- Embeds `models.Menu`: id, name, path, icon, optional parent pointer,
sequence, is_active, description.  The `Roles`/`Children` gorm relations are
derived from the join table / parent pointers, not stored on the row. -/
structure Menu where
  id : Nat
  name : String
  path : String
  icon : String
  parentID : Option Nat
  sequence : Int
  isActive : Bool
  description : String
deriving DecidableEq, Repr

/-! ## SessionStore (middleware/jwt.go and handlers token code) -/

/-- Embeds `ValidateTokenFromDB`: the gorm query
`token = ? AND is_active = ? AND expires_at > ?` followed by `First`,
returning the row on success and gorm's record-not-found error otherwise
(modelled as `none`).  `expires_at > now` is the strict comparison
`now < expiresAt`. -/
def validateTokenFromDB (store : List UserToken) (tok : String) (now : Nat) :
    Option UserToken :=
  store.find? (fun r => r.token == tok && r.isActive && decide (now < r.expiresAt))

/-- Embeds the core of `Logout`: `UPDATE user_tokens SET is_active=false
WHERE id = ?` with the session id that `AuthMiddleware` attached to the
request context. -/
def logoutDeactivate (store : List UserToken) (sessionId : Nat) : List UserToken :=
  store.map (fun r => if r.id == sessionId then { r with isActive := false } else r)

/-- Embeds the core of `RevokeAllTokens`: `UPDATE user_tokens SET
is_active=false WHERE user_id = ?`. -/
def revokeAllTokens (store : List UserToken) (uid : Nat) : List UserToken :=
  store.map (fun r => if r.userId == uid then { r with isActive := false } else r)

inductive RevokeResult where
  | notFound
  | ok
deriving DecidableEq, Repr

/-- Embeds `RevokeToken`: first `First` on `id = ? AND user_id = ?` with the
caller's user id; on record-not-found respond 404 leaving the store as is;
otherwise `db.Model(&token).Update("is_active", false)`, an update keyed on
the found row's primary key. -/
def revokeToken (store : List UserToken) (callerUid tokenId : Nat) :
    RevokeResult × List UserToken :=
  match store.find? (fun t => t.id == tokenId && t.userId == callerUid) with
  | none => (RevokeResult.notFound, store)
  | some t =>
      (RevokeResult.ok,
        store.map (fun r => if r.id == t.id then { r with isActive := false } else r))

/-! ## AuthGate (middleware.AuthMiddleware) -/

/-- Claims carried inside a JWT (`middleware.Claims`). -/
structure Claims where
  userID : Nat
  username : String
  roles : List String
deriving DecidableEq, Repr

/-- Go's `strings.Split(s, " ")` on a list of characters: splits around
every space, keeping empty fields (`Split("", " ") = [""]`). -/
def splitSpaceChars : List Char → List (List Char)
  | [] => [[]]
  | c :: rest =>
      match splitSpaceChars rest with
      | [] => [[c]]
      | w :: ws => if c = ' ' then [] :: w :: ws else (c :: w) :: ws

/-- Go's `strings.Split(authHeader, " ")` as used by `AuthMiddleware`. -/
def goSplitSpace (s : String) : List String :=
  (splitSpaceChars s.data).map (fun l => String.mk l)

/-- The header-parsing phase of `AuthMiddleware`: the raw bearer token is
extracted when the header splits into exactly `["Bearer", token]`. -/
def parseBearer (hdr : String) : Option String :=
  if hdr == "" then none
  else
    match goSplitSpace hdr with
    | [b, tok] => if b == "Bearer" then some tok else none
    | _ => none

/-- The three externally observable checks `AuthMiddleware` performs, in the
order the code performs them. -/
inductive AuthStep where
  | headerParse
  | storeLookup
  | signatureVerify
deriving DecidableEq, Repr

inductive AuthResult where
  | missingHeader
  | badFormat
  | tokenNotRecognized
  | invalidToken
  | authenticated (userID : Nat) (username : String) (roles : List String) (tokenId : Nat)
deriving DecidableEq, Repr

/-- HTTP status attached to each `AuthMiddleware` outcome (`authenticated`
means the middleware calls `c.Next()`; the eventual status is produced
downstream, recorded here as 200). -/
def authStatus : AuthResult → Nat
  | AuthResult.missingHeader => 401
  | AuthResult.badFormat => 401
  | AuthResult.tokenNotRecognized => 401
  | AuthResult.invalidToken => 401
  | AuthResult.authenticated _ _ _ _ => 200

/-- The part of `AuthMiddleware` after the header has been parsed: database
lookup of the raw token string, then JWT parse/verify.  `verify` abstracts
`jwt.ParseWithClaims` succeeding with a valid token (HMAC method, good
signature, embedded expiry not passed); `decode` abstracts the claims it
fills in.  On success the context receives the claims plus the id of the
database session row. -/
def authAfterParse (store : List UserToken) (now : Nat)
    (verify : String → Bool) (decode : String → Claims) (tok : String) :
    AuthResult × List AuthStep :=
  match validateTokenFromDB store tok now with
  | none => (AuthResult.tokenNotRecognized, [AuthStep.headerParse, AuthStep.storeLookup])
  | some ut =>
      if verify tok then
        (AuthResult.authenticated (decode tok).userID (decode tok).username
          (decode tok).roles ut.id,
         [AuthStep.headerParse, AuthStep.storeLookup, AuthStep.signatureVerify])
      else
        (AuthResult.invalidToken,
         [AuthStep.headerParse, AuthStep.storeLookup, AuthStep.signatureVerify])

/-- Embeds `AuthMiddleware`: empty-header check, `strings.Split` format
check (`len == 2` and first word `"Bearer"`), then `authAfterParse`.
The second component records which checks ran, in order. -/
def authMiddleware (store : List UserToken) (now : Nat)
    (verify : String → Bool) (decode : String → Claims) (hdr : String) :
    AuthResult × List AuthStep :=
  if hdr == "" then (AuthResult.missingHeader, [AuthStep.headerParse])
  else
    match goSplitSpace hdr with
    | [b, tok] =>
        if b == "Bearer" then authAfterParse store now verify decode tok
        else (AuthResult.badFormat, [AuthStep.headerParse])
    | _ => (AuthResult.badFormat, [AuthStep.headerParse])

theorem authMiddleware_parsed (store : List UserToken) (now : Nat)
    (verify : String → Bool) (decode : String → Claims) (hdr tok : String)
    (h : parseBearer hdr = some tok) :
    authMiddleware store now verify decode hdr = authAfterParse store now verify decode tok := by
  unfold parseBearer at h
  unfold authMiddleware
  by_cases he : hdr == ""
  · simp [he] at h
  · simp only [he, if_false] at h ⊢
    cases hsplit : goSplitSpace hdr with
    | nil => rw [hsplit] at h; exact absurd h (by simp)
    | cons b rest =>
      cases rest with
      | nil => rw [hsplit] at h; exact absurd h (by simp)
      | cons t rest2 =>
        cases rest2 with
        | nil =>
            rw [hsplit] at h
            simp only at h
            by_cases hb : b == "Bearer"
            · simp only [hb, if_true] at h ⊢
              cases h; rfl
            · simp [hb] at h
        | cons u rest3 => rw [hsplit] at h; exact absurd h (by simp)

/-! ## Session / auth-gate lemmas -/

theorem validate_pred_iff (r : UserToken) (tok : String) (now : Nat) :
    (r.token == tok && r.isActive && decide (now < r.expiresAt)) = true
      ↔ (r.token = tok ∧ r.isActive = true ∧ now < r.expiresAt) := by
  simp [Bool.and_assoc, and_assoc]

theorem validate_none_of_no_live (store : List UserToken) (tok : String) (now : Nat)
    (h : ∀ r ∈ store, ¬(r.token = tok ∧ r.isActive = true ∧ now < r.expiresAt)) :
    validateTokenFromDB store tok now = none := by
  unfold validateTokenFromDB
  rw [List.find?_eq_none]
  intro x hx hpred
  exact h x hx ((validate_pred_iff x tok now).1 hpred)

theorem validate_logout_none (store : List UserToken) (tok : String) (now : Nat)
    (sid : Nat) (h : ∀ r ∈ store, r.token = tok → r.id = sid) :
    validateTokenFromDB (logoutDeactivate store sid) tok now = none := by
  unfold validateTokenFromDB logoutDeactivate
  rw [List.find?_eq_none]
  intro x hx hpred
  rcases List.mem_map.1 hx with ⟨r, hr, hfr⟩
  rcases (validate_pred_iff x tok now).1 hpred with ⟨htok, hact, _⟩
  by_cases hid : r.id == sid
  · simp only [hid, if_true] at hfr
    rw [← hfr] at hact
    simp at hact
  · simp only [hid, if_false] at hfr
    subst hfr
    exact absurd (h r hr htok) (by simpa using hid)

theorem validate_revokeAll_none (store : List UserToken) (tok : String) (now : Nat)
    (uid : Nat) (h : ∀ r ∈ store, r.token = tok → r.userId = uid) :
    validateTokenFromDB (revokeAllTokens store uid) tok now = none := by
  unfold validateTokenFromDB revokeAllTokens
  rw [List.find?_eq_none]
  intro x hx hpred
  rcases List.mem_map.1 hx with ⟨r, hr, hfr⟩
  rcases (validate_pred_iff x tok now).1 hpred with ⟨htok, hact, _⟩
  by_cases huid : r.userId == uid
  · simp only [huid, if_true] at hfr
    rw [← hfr] at hact
    simp at hact
  · simp only [huid, if_false] at hfr
    subst hfr
    exact absurd (h r hr htok) (by simpa using huid)

/-- C2: AuthGate performs header parse, then store lookup, then signature
verification, in that fixed order; when the store lookup fails (e.g. the
token was revoked) the request is rejected 401 and the signature-verify
step never runs, for every `verify` function — in particular one that
would accept the token's signature and embedded expiry. -/
theorem authGate_checks_ordered_and_store_before_signature
    (store : List UserToken) (now : Nat) (verify : String → Bool)
    (decode : String → Claims) (hdr tok : String)
    (hparse : parseBearer hdr = some tok)
    (hrevoked : validateTokenFromDB store tok now = none) :
    authMiddleware store now verify decode hdr
      = (AuthResult.tokenNotRecognized, [AuthStep.headerParse, AuthStep.storeLookup])
    ∧ authStatus (authMiddleware store now verify decode hdr).1 = 401
    ∧ AuthStep.signatureVerify ∉ (authMiddleware store now verify decode hdr).2
    ∧ ∀ hdr2 : String,
        (authMiddleware store now verify decode hdr2).2 = [AuthStep.headerParse]
        ∨ (authMiddleware store now verify decode hdr2).2
            = [AuthStep.headerParse, AuthStep.storeLookup]
        ∨ (authMiddleware store now verify decode hdr2).2
            = [AuthStep.headerParse, AuthStep.storeLookup, AuthStep.signatureVerify] := by
  have hmain : authMiddleware store now verify decode hdr
      = (AuthResult.tokenNotRecognized, [AuthStep.headerParse, AuthStep.storeLookup]) := by
    rw [authMiddleware_parsed store now verify decode hdr tok hparse]
    unfold authAfterParse
    rw [hrevoked]
  refine ⟨hmain, by rw [hmain]; rfl, by rw [hmain]; simp, ?_⟩
  intro hdr2
  unfold authMiddleware authAfterParse
  by_cases he : hdr2 == ""
  · simp [he]
  · simp only [he, if_false]
    cases goSplitSpace hdr2 with
    | nil => simp
    | cons b rest =>
      cases rest with
      | nil => simp
      | cons t rest2 =>
        cases rest2 with
        | nil =>
            by_cases hb : b == "Bearer"
            · simp only [hb, if_true]
              cases validateTokenFromDB store t now with
              | none => simp
              | some ut => by_cases hv : verify t <;> simp [hv]
            · simp [hb]
        | cons u rest3 => simp

/-- Witness for C2 at a concrete revoked-token input. -/
theorem authGate_order_witness :
    parseBearer "Bearer t" = some "t"
    ∧ validateTokenFromDB [] "t" 0 = none
    ∧ authMiddleware [] 0 (fun _ => true) (fun _ => ⟨0, "", []⟩) "Bearer t"
        = (AuthResult.tokenNotRecognized, [AuthStep.headerParse, AuthStep.storeLookup]) :=
  ⟨by decide, by decide,
    (authGate_checks_ordered_and_store_before_signature [] 0 (fun _ => true)
      (fun _ => ⟨0, "", []⟩) "Bearer t" "t" (by decide) (by decide)).1⟩

/-- C3: once a session is revoked (single revoke keyed on the session id,
as Logout and RevokeToken do) every later AuthGate attempt with that exact
token string yields 401, at every later time — in particular before the
embedded expiry and for any signature verifier; RevokeAll likewise kills
every token belonging to the user. -/
theorem revoke_prevents_future_auth
    (store : List UserToken) (now : Nat) (verify : String → Bool)
    (decode : String → Claims) (hdr tok : String) (sid uid : Nat)
    (hparse : parseBearer hdr = some tok) :
    ((∀ r ∈ store, r.token = tok → r.id = sid) →
      authStatus (authMiddleware (logoutDeactivate store sid) now verify decode hdr).1 = 401
      ∧ (authMiddleware (logoutDeactivate store sid) now verify decode hdr).1
          = AuthResult.tokenNotRecognized)
    ∧ ((∀ r ∈ store, r.token = tok → r.userId = uid) →
      authStatus (authMiddleware (revokeAllTokens store uid) now verify decode hdr).1 = 401
      ∧ (authMiddleware (revokeAllTokens store uid) now verify decode hdr).1
          = AuthResult.tokenNotRecognized) := by
  constructor
  · intro h
    have hv := validate_logout_none store tok now sid h
    have : authMiddleware (logoutDeactivate store sid) now verify decode hdr
        = (AuthResult.tokenNotRecognized, [AuthStep.headerParse, AuthStep.storeLookup]) := by
      rw [authMiddleware_parsed _ now verify decode hdr tok hparse]
      unfold authAfterParse
      rw [hv]
    rw [this]
    exact ⟨rfl, rfl⟩
  · intro h
    have hv := validate_revokeAll_none store tok now uid h
    have : authMiddleware (revokeAllTokens store uid) now verify decode hdr
        = (AuthResult.tokenNotRecognized, [AuthStep.headerParse, AuthStep.storeLookup]) := by
      rw [authMiddleware_parsed _ now verify decode hdr tok hparse]
      unfold authAfterParse
      rw [hv]
    rw [this]
    exact ⟨rfl, rfl⟩

/-- Witness for C3: a live, unexpired session (expiry 100, time 1) is
revoked and its token no longer authenticates. -/
theorem revoke_witness :
    parseBearer "Bearer tk" = some "tk"
    ∧ validateTokenFromDB [⟨7, 3, "tk", 100, true⟩] "tk" 1 = some ⟨7, 3, "tk", 100, true⟩
    ∧ authStatus (authMiddleware (logoutDeactivate [⟨7, 3, "tk", 100, true⟩] 7) 1
        (fun _ => true) (fun _ => ⟨3, "u", ["ops"]⟩) "Bearer tk").1 = 401 :=
  ⟨by decide, by decide,
    ((revoke_prevents_future_auth [⟨7, 3, "tk", 100, true⟩] 1 (fun _ => true)
      (fun _ => ⟨3, "u", ["ops"]⟩) "Bearer tk" "tk" 7 3 (by decide)).1
      (by intro r hr htok; simp at hr; rw [hr])).1⟩

/-- C7: the store lookup succeeds exactly when a row exists with exactly
that token string, active, and expiry strictly in the future; every failing
state (inactive, expired, absent) produces the one `none` outcome, so two
stores that both lack a live row for the token — e.g. one where it was
revoked and one where it was never issued — are indistinguishable through
`ValidateTokenFromDB` and through the whole auth gate. -/
theorem lookup_live_iff_and_indistinguishable
    (store s1 s2 : List UserToken) (tok : String) (now : Nat)
    (verify : String → Bool) (decode : String → Claims) (hdr : String) :
    ((validateTokenFromDB store tok now).isSome
        ↔ ∃ r ∈ store, r.token = tok ∧ r.isActive = true ∧ now < r.expiresAt)
    ∧ ((∀ r ∈ s1, ¬(r.token = tok ∧ r.isActive = true ∧ now < r.expiresAt)) →
       (∀ r ∈ s2, ¬(r.token = tok ∧ r.isActive = true ∧ now < r.expiresAt)) →
        validateTokenFromDB s1 tok now = none
        ∧ validateTokenFromDB s2 tok now = none
        ∧ (parseBearer hdr = some tok →
            authMiddleware s1 now verify decode hdr
              = authMiddleware s2 now verify decode hdr)) := by
  constructor
  · unfold validateTokenFromDB
    rw [List.find?_isSome]
    constructor
    · rintro ⟨r, hr, hpred⟩
      exact ⟨r, hr, (validate_pred_iff r tok now).1 hpred⟩
    · rintro ⟨r, hr, hp⟩
      exact ⟨r, hr, (validate_pred_iff r tok now).2 hp⟩
  · intro h1 h2
    have e1 := validate_none_of_no_live s1 tok now h1
    have e2 := validate_none_of_no_live s2 tok now h2
    refine ⟨e1, e2, fun hparse => ?_⟩
    rw [authMiddleware_parsed s1 now verify decode hdr tok hparse,
        authMiddleware_parsed s2 now verify decode hdr tok hparse]
    unfold authAfterParse
    rw [e1, e2]

/-- Witness for C7: a store holding a revoked (inactive) row for the token
and a store not holding the token at all produce identical observable
results. -/
theorem lookup_indistinguishable_witness :
    validateTokenFromDB [⟨7, 3, "tk", 100, false⟩] "tk" 1 = none
    ∧ validateTokenFromDB [⟨9, 4, "zz", 100, true⟩] "tk" 1 = none
    ∧ authMiddleware [⟨7, 3, "tk", 100, false⟩] 1 (fun _ => true)
        (fun _ => ⟨3, "u", ["ops"]⟩) "Bearer tk"
      = authMiddleware [⟨9, 4, "zz", 100, true⟩] 1 (fun _ => true)
        (fun _ => ⟨3, "u", ["ops"]⟩) "Bearer tk" := by
  have h := (lookup_live_iff_and_indistinguishable [] [⟨7, 3, "tk", 100, false⟩]
    [⟨9, 4, "zz", 100, true⟩] "tk" 1 (fun _ => true)
    (fun _ => ⟨3, "u", ["ops"]⟩) "Bearer tk").2
    (by intro r hr; simp at hr; rw [hr]; simp)
    (by intro r hr; simp at hr; rw [hr]; simp)
  exact ⟨h.1, h.2.1, h.2.2 (by decide)⟩

/-- C10: RevokeToken leaves the store untouched (status 404) when the
caller owns no session with the requested id; and assuming the primary-key
invariant (rows are identified by their id), every row belonging to a user
other than the caller is unchanged by the call. -/
theorem revokeToken_frames_other_users
    (store : List UserToken) (uid tid : Nat)
    (huniq : ∀ a ∈ store, ∀ b ∈ store, a.id = b.id → a = b) :
    ((∀ t ∈ store, ¬(t.id = tid ∧ t.userId = uid)) →
        revokeToken store uid tid = (RevokeResult.notFound, store))
    ∧ List.Forall₂ (fun old new => old.userId ≠ uid → new = old)
        store (revokeToken store uid tid).2 := by
  constructor
  · intro hnone
    unfold revokeToken
    have : store.find? (fun t => t.id == tid && t.userId == uid) = none := by
      rw [List.find?_eq_none]
      intro x hx hpred
      have : x.id = tid ∧ x.userId = uid := by
        simpa using hpred
      exact hnone x hx this
    rw [this]
  · unfold revokeToken
    cases hfind : store.find? (fun t => t.id == tid && t.userId == uid) with
    | none =>
        exact List.forall₂_same.2 (fun x _ _ => rfl)
    | some t =>
        have htmem : t ∈ store := List.mem_of_find?_eq_some hfind
        have htpred : t.id = tid ∧ t.userId = uid := by
          simpa using List.find?_some hfind
        simp only
        rw [List.forall₂_map_right_iff]
        refine List.forall₂_same.2 (fun r hr hruid => ?_)
        by_cases hid : r.id == t.id
        · have : r = t := huniq r hr t htmem (by simpa using hid)
          rw [this] at hruid
          exact absurd htpred.2 hruid
        · simp [hid]

/-- Witness for C10: caller 10 asks to revoke session id 99 which belongs
to nobody; the call reports not-found and the store (including user 20's
session) is unchanged. -/
theorem revokeToken_frame_witness :
    revokeToken [⟨1, 10, "a", 5, true⟩, ⟨2, 20, "b", 5, true⟩] 10 99
      = (RevokeResult.notFound, [⟨1, 10, "a", 5, true⟩, ⟨2, 20, "b", 5, true⟩]) :=
  (revokeToken_frames_other_users [⟨1, 10, "a", 5, true⟩, ⟨2, 20, "b", 5, true⟩] 10 99
    (by decide)).1 (by decide)

/-! ## PermissionMatrix (middleware.APIAccessMiddleware, routes.insertAPIEndpoints) -/

/-- The tables `APIAccessMiddleware` consults: `apis`, `roles`, and the
`map_role_api` join table. -/
structure PermDB where
  apis : List API
  roles : List Role
  mapRoleApi : List MapRoleApi
deriving DecidableEq, Repr

inductive AccessResult where
  | rolesMissing
  | routeUnknown
  | forbidden
  | allow
deriving DecidableEq, Repr

/-- Status codes produced by `APIAccessMiddleware` (`allow` means `c.Next()`,
recorded as 200). -/
def accessStatus : AccessResult → Nat
  | AccessResult.rolesMissing => 401
  | AccessResult.routeUnknown => 404
  | AccessResult.forbidden => 403
  | AccessResult.allow => 200

/-- Embeds `APIAccessMiddleware`: read `roles` from the request context
(absent means 401); `First` on `path = ? AND method = ?` (record-not-found
means 404 "API not found"); then count the `map_role_api` rows whose api is
this entry and whose role id belongs to a role row named in the caller's
roles (`role_id IN (SELECT id FROM roles WHERE name IN ?)`); zero means
403, otherwise the request proceeds. -/
def apiAccessMiddleware (db : PermDB) (rolesCtx : Option (List String))
    (path method : String) : AccessResult :=
  match rolesCtx with
  | none => AccessResult.rolesMissing
  | some roles =>
      match db.apis.find? (fun a => a.path == path && a.method == method) with
      | none => AccessResult.routeUnknown
      | some api =>
          let count := db.mapRoleApi.countP (fun m =>
            m.apiId == api.id && db.roles.any (fun r =>
              r.id == m.roleId && roles.contains r.name))
          if count == 0 then AccessResult.forbidden else AccessResult.allow

/-- The granted role set of a permission entry: the names of the roles
related to it through `map_role_api`. -/
def grantedRoleNames (db : PermDB) (api : API) : List String :=
  (db.roles.filter (fun r => db.mapRoleApi.any (fun m =>
    m.roleId == r.id && m.apiId == api.id))).map Role.name

theorem granted_intersect_iff (db : PermDB) (api : API) (roles : List String) :
    (∃ n ∈ roles, n ∈ grantedRoleNames db api)
      ↔ 0 < db.mapRoleApi.countP (fun m =>
          m.apiId == api.id && db.roles.any (fun r =>
            r.id == m.roleId && roles.contains r.name)) := by
  rw [List.countP_pos_iff]
  constructor
  · rintro ⟨n, hn, hg⟩
    unfold grantedRoleNames at hg
    rcases List.mem_map.1 hg with ⟨r, hrf, hname⟩
    rcases List.mem_filter.1 hrf with ⟨hrmem, hany⟩
    rcases List.any_eq_true.1 hany with ⟨m, hm, hpred⟩
    have hmr : m.roleId = r.id ∧ m.apiId = api.id := by simpa using hpred
    refine ⟨m, hm, ?_⟩
    simp only [Bool.and_eq_true, beq_iff_eq, List.any_eq_true]
    refine ⟨hmr.2, r, hrmem, ?_⟩
    simp [hmr.1, hname, hn]
  · rintro ⟨m, hm, hpred⟩
    have hpred' : m.apiId = api.id ∧ ∃ r ∈ db.roles, r.id = m.roleId ∧ r.name ∈ roles := by
      simpa using hpred
    rcases hpred' with ⟨hapi, r, hrmem, hrid, hrcont⟩
    refine ⟨r.name, hrcont, ?_⟩
    unfold grantedRoleNames
    refine List.mem_map.2 ⟨r, List.mem_filter.2 ⟨hrmem, ?_⟩, rfl⟩
    exact List.any_eq_true.2 ⟨m, hm, by simp [hrid, hapi]⟩

/-- C1: with the caller's roles present in the context, `CheckAccess`
(APIAccessMiddleware) answers `routeUnknown` (404) exactly when no
permission entry matches `(path, method)`, `allow` exactly when an entry
matches and its granted role set meets the caller's roles, and `forbidden`
(403) exactly when an entry matches and the intersection is empty — under
the `(path, method)` uniqueness invariant of the `apis` table. -/
theorem checkAccess_trichotomy
    (db : PermDB) (roles : List String) (path method : String)
    (huniq : ∀ a ∈ db.apis, ∀ b ∈ db.apis,
      a.path = b.path → a.method = b.method → a = b) :
    (apiAccessMiddleware db (some roles) path method = AccessResult.routeUnknown
       ↔ ¬ ∃ a ∈ db.apis, a.path = path ∧ a.method = method)
    ∧ (apiAccessMiddleware db (some roles) path method = AccessResult.allow
       ↔ ∃ a ∈ db.apis, a.path = path ∧ a.method = method
            ∧ ∃ n ∈ roles, n ∈ grantedRoleNames db a)
    ∧ (apiAccessMiddleware db (some roles) path method = AccessResult.forbidden
       ↔ ∃ a ∈ db.apis, a.path = path ∧ a.method = method
            ∧ ¬ ∃ n ∈ roles, n ∈ grantedRoleNames db a)
    ∧ accessStatus AccessResult.routeUnknown = 404
    ∧ accessStatus AccessResult.forbidden = 403 := by
  unfold apiAccessMiddleware
  cases hfind : db.apis.find? (fun a => a.path == path && a.method == method) with
  | none =>
      have hnone : ∀ a ∈ db.apis, ¬(a.path = path ∧ a.method = method) := by
        intro a ha hmatch
        have := List.find?_eq_none.1 hfind a ha
        simp [hmatch.1, hmatch.2] at this
      refine ⟨?_, ?_, ?_, rfl, rfl⟩
      · simp only [true_iff]
        rintro ⟨a, ha, hp, hm⟩
        exact hnone a ha ⟨hp, hm⟩
      · constructor
        · intro h; cases h
        · rintro ⟨a, ha, hp, hm, _⟩
          exact absurd ⟨hp, hm⟩ (hnone a ha)
      · constructor
        · intro h; cases h
        · rintro ⟨a, ha, hp, hm, _⟩
          exact absurd ⟨hp, hm⟩ (hnone a ha)
  | some api =>
      have hmem : api ∈ db.apis := List.mem_of_find?_eq_some hfind
      have hmatch : api.path = path ∧ api.method = method := by
        have := List.find?_some hfind
        simpa using this
      have hcollapse : ∀ a ∈ db.apis, a.path = path → a.method = method → a = api := by
        intro a ha hp hm
        exact huniq a ha api hmem (hp.trans hmatch.1.symm) (hm.trans hmatch.2.symm)
      simp only
      set cnt := db.mapRoleApi.countP (fun m =>
        m.apiId == api.id && db.roles.any (fun r =>
          r.id == m.roleId && roles.contains r.name)) with hcnt
      by_cases hzero : cnt = 0
      · have hnointer : ¬ ∃ n ∈ roles, n ∈ grantedRoleNames db api := by
          rw [granted_intersect_iff, ← hcnt]
          omega
        have hb : (cnt == 0) = true := by simpa using hzero
        simp only [hb, if_true]
        refine ⟨?_, ?_, ?_, rfl, rfl⟩
        · constructor
          · intro h; cases h
          · intro h
            exact absurd ⟨api, hmem, hmatch.1, hmatch.2⟩ h
        · constructor
          · intro h; cases h
          · rintro ⟨a, ha, hp, hm, hint⟩
            have := hcollapse a ha hp hm
            subst this
            exact absurd hint hnointer
        · simp only [true_iff]
          exact ⟨api, hmem, hmatch.1, hmatch.2, hnointer⟩
      · have hinter : ∃ n ∈ roles, n ∈ grantedRoleNames db api := by
          rw [granted_intersect_iff, ← hcnt]
          omega
        have hne : (cnt == 0) = false := by
          simpa using hzero
        simp only [hne, Bool.false_eq_true, if_false]
        refine ⟨?_, ?_, ?_, rfl, rfl⟩
        · constructor
          · intro h; cases h
          · intro h
            exact absurd ⟨api, hmem, hmatch.1, hmatch.2⟩ h
        · simp only [true_iff]
          exact ⟨api, hmem, hmatch.1, hmatch.2, hinter⟩
        · constructor
          · intro h; cases h
          · rintro ⟨a, ha, hp, hm, hnoint⟩
            have := hcollapse a ha hp hm
            subst this
            exact absurd hinter hnoint

/-- Witness for C1 at the spec's own scenario: entry `/roles GET` granted
only to `super_admin`; a caller with roles `{"ops"}` gets 403. -/
theorem checkAccess_witness :
    apiAccessMiddleware ⟨[⟨1, "/roles", "GET", "d"⟩], [⟨1, "super_admin"⟩, ⟨2, "ops"⟩], [⟨1, 1⟩]⟩
      (some ["ops"]) "/roles" "GET" = AccessResult.forbidden
    ∧ accessStatus AccessResult.forbidden = 403 :=
  ⟨(checkAccess_trichotomy ⟨[⟨1, "/roles", "GET", "d"⟩], [⟨1, "super_admin"⟩, ⟨2, "ops"⟩], [⟨1, 1⟩]⟩
      ["ops"] "/roles" "GET" (by decide)).2.2.1.mpr (by decide), rfl⟩

/-! ## Startup reconciliation (routes.insertAPIEndpoints) -/

/-- The `First` lookup of `insertAPIEndpoints`: does a row with this
`(path, method)` already exist? -/
def hasRoute (st : List API) (p m : String) : Bool :=
  st.any (fun a => a.path == p && a.method == m)

/-- One iteration of the loop body of `insertAPIEndpoints`: look the route
up; if absent, insert a fresh row whose description is
`fmt.Sprintf("%s %s endpoint", method, path)`.  The second state component
supplies the fresh primary key (the id generator). -/
def insertStep (acc : List API × Nat) (r : String × String) : List API × Nat :=
  if hasRoute acc.1 r.1 r.2 then acc
  else (acc.1 ++ [⟨acc.2, r.1, r.2, r.2 ++ " " ++ r.1 ++ " endpoint"⟩], acc.2 + 1)

/-- Embeds `insertAPIEndpoints`: iterate `insertStep` over the declared
route list (`router.Routes()`), starting from the existing `apis` table. -/
def insertAPIEndpoints (st : List API × Nat) (routes : List (String × String)) :
    List API × Nat :=
  routes.foldl insertStep st

theorem hasRoute_insertStep (acc : List API × Nat) (r : String × String)
    (p m : String) (h : hasRoute acc.1 p m = true) :
    hasRoute (insertStep acc r).1 p m = true := by
  unfold insertStep
  by_cases hr : hasRoute acc.1 r.1 r.2
  · rw [if_pos hr]
    exact h
  · simp only [hr, Bool.false_eq_true, if_false]
    unfold hasRoute at h ⊢
    rw [List.any_append, h, Bool.true_or]

theorem hasRoute_fold (st : List API × Nat) (routes : List (String × String))
    (p m : String) (h : hasRoute st.1 p m = true) :
    hasRoute (insertAPIEndpoints st routes).1 p m = true := by
  induction routes generalizing st with
  | nil => exact h
  | cons r rs ih =>
      exact ih (insertStep st r) (hasRoute_insertStep st r p m h)

theorem hasRoute_insertStep_self (acc : List API × Nat) (r : String × String) :
    hasRoute (insertStep acc r).1 r.1 r.2 = true := by
  unfold insertStep
  by_cases hr : hasRoute acc.1 r.1 r.2
  · rw [if_pos hr]
    exact hr
  · simp only [hr, Bool.false_eq_true, if_false]
    unfold hasRoute
    rw [List.any_append]
    simp

theorem insertAPIEndpoints_covers (st : List API × Nat)
    (routes : List (String × String)) :
    ∀ r ∈ routes, hasRoute (insertAPIEndpoints st routes).1 r.1 r.2 = true := by
  induction routes generalizing st with
  | nil => intro r hr; cases hr
  | cons q qs ih =>
      intro r hr
      cases hr with
      | head =>
          exact hasRoute_fold (insertStep st q) qs q.1 q.2
            (hasRoute_insertStep_self st q)
      | tail _ hmem => exact ih (insertStep st q) r hmem

theorem insertAPIEndpoints_noop (st : List API × Nat)
    (routes : List (String × String))
    (h : ∀ r ∈ routes, hasRoute st.1 r.1 r.2 = true) :
    insertAPIEndpoints st routes = st := by
  induction routes generalizing st with
  | nil => rfl
  | cons q qs ih =>
      have hq : insertStep st q = st := by
        unfold insertStep
        rw [h q (List.mem_cons_self q qs)]
        simp
      show insertAPIEndpoints (insertStep st q) qs = st
      rw [hq]
      exact ih st (fun r hr => h r (List.mem_cons_of_mem q hr))

/-- C6: reconciliation is idempotent — a second run over the unchanged
declared route set returns the state of the first run unchanged (zero new
rows); and it never introduces duplicate `(path, method)` pairs: if the
table satisfies the uniqueness invariant before a run, it satisfies it
after. -/
theorem reconcile_idempotent (st : List API × Nat) (routes : List (String × String)) :
    insertAPIEndpoints (insertAPIEndpoints st routes) routes
      = insertAPIEndpoints st routes
    ∧ (List.Pairwise (fun a b : API => ¬(a.path = b.path ∧ a.method = b.method)) st.1 →
       List.Pairwise (fun a b : API => ¬(a.path = b.path ∧ a.method = b.method))
         (insertAPIEndpoints st routes).1) := by
  constructor
  · exact insertAPIEndpoints_noop (insertAPIEndpoints st routes) routes
      (insertAPIEndpoints_covers st routes)
  · intro h
    induction routes generalizing st with
    | nil => exact h
    | cons q qs ih =>
        show List.Pairwise _ (insertAPIEndpoints (insertStep st q) qs).1
        apply ih
        unfold insertStep
        by_cases hr : hasRoute st.1 q.1 q.2
        · rw [if_pos hr]
          exact h
        · simp only [hr, Bool.false_eq_true, if_false]
          rw [List.pairwise_append]
          refine ⟨h, List.pairwise_singleton _ _, ?_⟩
          intro a ha b hb
          have hb' : b = ⟨st.2, q.1, q.2, q.2 ++ " " ++ q.1 ++ " endpoint"⟩ := by
            simpa using hb
          subst hb'
          intro hdup
          unfold hasRoute at hr
          have : ∃ x ∈ st.1, (x.path == q.1 && x.method == q.2) = true :=
            ⟨a, ha, by simp [hdup.1, hdup.2]⟩
          rw [← List.any_eq_true] at this
          exact absurd this (by simpa using hr)

/-- Witness for C6: one concrete double run, and invariant preservation
from an empty table. -/
theorem reconcile_idempotent_witness :
    insertAPIEndpoints (insertAPIEndpoints ([], 0) [("/login", "POST"), ("/roles", "GET")])
        [("/login", "POST"), ("/roles", "GET")]
      = insertAPIEndpoints ([], 0) [("/login", "POST"), ("/roles", "GET")]
    ∧ List.Pairwise (fun a b : API => ¬(a.path = b.path ∧ a.method = b.method))
        (insertAPIEndpoints ([], 0) [("/login", "POST"), ("/roles", "GET")]).1 :=
  ⟨(reconcile_idempotent ([], 0) [("/login", "POST"), ("/roles", "GET")]).1,
   (reconcile_idempotent ([], 0) [("/login", "POST"), ("/roles", "GET")]).2
     (List.Pairwise.nil)⟩

/-! ## MenuTree mutation (handlers UpdateMenu / DeleteMenu / isCircularReference) -/

/-- gorm `First` on `id = ?` over the `menus` table. -/
def findMenu (store : List Menu) (id : Nat) : Option Menu :=
  store.find? (fun m => m.id == id)

/-- `isCircularReference` walks parent pointers upward from `parentID`
looking for `menuID`.  The Go recursion has no depth bound; here it carries
explicit fuel.  On any store whose parent relation is acyclic the walk
visits pairwise-distinct stored nodes, so `store.length` fuel is exhaustive
and the fuelled function coincides with the Go function wherever the latter
terminates (`isCircularReference` below fixes that fuel). -/
def isCircularReferenceFuel (store : List Menu) : Nat → Nat → Nat → Bool
  | 0, _, _ => false
  | fuel + 1, parentID, menuID =>
      match findMenu store parentID with
      | none => false
      | some m =>
          match m.parentID with
          | none => false
          | some p =>
              if p == menuID then true
              else isCircularReferenceFuel store fuel p menuID

/-- Embeds `isCircularReference(parentID, menuID)`. -/
def isCircularReference (store : List Menu) (parentID menuID : Nat) : Bool :=
  isCircularReferenceFuel store store.length parentID menuID

/-- Embeds `MenuRequest` (the update payload). -/
structure MenuRequest where
  name : String
  path : String
  icon : String
  parentID : Option Nat
  sequence : Int
  isActive : Bool
  description : String
deriving DecidableEq, Repr

inductive UpdateResult where
  | notFound
  | parentNotFound
  | circularReference
  | ok
deriving DecidableEq, Repr

/-- Status codes of `UpdateMenu` outcomes. -/
def updateStatus : UpdateResult → Nat
  | UpdateResult.notFound => 404
  | UpdateResult.parentNotFound => 400
  | UpdateResult.circularReference => 400
  | UpdateResult.ok => 200

/-- Embeds `UpdateMenu`: fetch the node; when a parent is requested AND it
differs from the node's own id, require the parent row to exist and pass
the circular-reference walk; then overwrite the row's fields (`db.Save`
updates by primary key). -/
def updateMenu (store : List Menu) (id : Nat) (req : MenuRequest) :
    UpdateResult × List Menu :=
  match findMenu store id with
  | none => (UpdateResult.notFound, store)
  | some menu =>
      let menuSaved : Menu :=
        { menu with
          name := req.name, path := req.path, icon := req.icon,
          parentID := req.parentID, sequence := req.sequence,
          isActive := req.isActive, description := req.description }
      let save : UpdateResult × List Menu :=
        (UpdateResult.ok,
          store.map (fun m => if m.id == menu.id then menuSaved else m))
      match req.parentID with
      | some pid =>
          if pid ≠ menu.id then
            match findMenu store pid with
            | none => (UpdateResult.parentNotFound, store)
            | some _ =>
                if isCircularReference store pid menu.id then
                  (UpdateResult.circularReference, store)
                else save
          else save
      | none => save

inductive DeleteResult where
  | hasChildren
  | notFound
  | ok
deriving DecidableEq, Repr

/-- Status codes of `DeleteMenu` outcomes. -/
def deleteStatus : DeleteResult → Nat
  | DeleteResult.hasChildren => 400
  | DeleteResult.notFound => 404
  | DeleteResult.ok => 200

/-- Embeds `DeleteMenu`: count rows with `parent_id = ?`; a positive count
aborts with 400; otherwise delete by id, reporting 404 when no row was
affected. -/
def deleteMenu (store : List Menu) (id : Nat) : DeleteResult × List Menu :=
  let childCount := store.countP (fun m => m.parentID == some id)
  if childCount > 0 then (DeleteResult.hasChildren, store)
  else
    let remaining := store.filter (fun m => !(m.id == id))
    if store.length - remaining.length == 0 then (DeleteResult.notFound, store)
    else (DeleteResult.ok, remaining)

/-- C9: deleting a menu node that has at least one child fails with 400 and
leaves the store — the node and all of its children — unchanged. -/
theorem deleteMenu_refuses_with_children (store : List Menu) (id : Nat)
    (h : ∃ c ∈ store, c.parentID = some id) :
    deleteMenu store id = (DeleteResult.hasChildren, store)
    ∧ deleteStatus DeleteResult.hasChildren = 400 := by
  rcases h with ⟨c, hc, hp⟩
  have hpos : 0 < store.countP (fun m => m.parentID == some id) :=
    List.countP_pos_iff.2 ⟨c, hc, by simp [hp]⟩
  refine ⟨?_, rfl⟩
  unfold deleteMenu
  rw [if_pos hpos]

/-- Witness for C9: node 1 with an active child 2; deletion of 1 refused,
both rows still present. -/
theorem deleteMenu_refuses_witness :
    deleteMenu [⟨1, "a", "/a", "", none, 0, true, ""⟩,
                ⟨2, "b", "/b", "", some 1, 0, true, ""⟩] 1
      = (DeleteResult.hasChildren,
         [⟨1, "a", "/a", "", none, 0, true, ""⟩,
          ⟨2, "b", "/b", "", some 1, 0, true, ""⟩]) :=
  (deleteMenu_refuses_with_children
    [⟨1, "a", "/a", "", none, 0, true, ""⟩, ⟨2, "b", "/b", "", some 1, 0, true, ""⟩] 1
    ⟨⟨2, "b", "/b", "", some 1, 0, true, ""⟩, by simp, rfl⟩).1

/-- C4 counterexample: `UpdateMenu` accepts assigning node 1 as its own
parent.  The guard `req.ParentID != nil && *req.ParentID != menu.ID` skips
the whole validation block (parent existence and circular check) exactly
when the requested parent IS the node itself, and the save then writes the
length-1 cycle. -/
theorem updateMenu_self_parent_accepted :
    updateMenu [⟨1, "a", "/a", "", none, 0, true, ""⟩] 1
        ⟨"a", "/a", "", some 1, 0, true, ""⟩
      = (UpdateResult.ok, [⟨1, "a", "/a", "", some 1, 0, true, ""⟩])
    ∧ updateStatus UpdateResult.ok = 200 := by
  decide

/-! Parent-pointer reachability used to express "the node would become its
own ancestor" independently of the code's own walk. -/

/-- The parent pointer of the stored node with id `x`. -/
def parentIdOf (store : List Menu) (x : Nat) : Option Nat :=
  match findMenu store x with
  | none => none
  | some m => m.parentID

/-- `k`-fold iteration of the parent pointer: `iterParent store k x = some y`
says there is a parent chain of length exactly `k` in the store from `x`
up to `y`. -/
def iterParent (store : List Menu) : Nat → Nat → Option Nat
  | 0, x => some x
  | k + 1, x =>
      match parentIdOf store x with
      | none => none
      | some y => iterParent store k y

theorem iterParent_add (store : List Menu) (a b x : Nat) :
    iterParent store (a + b) x
      = (iterParent store a x).bind (fun y => iterParent store b y) := by
  induction a generalizing x with
  | zero => simp [iterParent]
  | succ a ih =>
      have hsum : a + 1 + b = (a + b) + 1 := by omega
      rw [hsum]
      cases hp : parentIdOf store x with
      | none => simp [iterParent, hp]
      | some y => simp [iterParent, hp, ih]

theorem circular_of_iterParent (store : List Menu) (id : Nat) :
    ∀ k pid fuel, 1 ≤ k → k ≤ fuel → iterParent store k pid = some id →
    isCircularReferenceFuel store fuel pid id = true := by
  intro k
  induction k with
  | zero => intro pid fuel h1 _ _; omega
  | succ k ih =>
      intro pid fuel _ hle hiter
      cases fuel with
      | zero => omega
      | succ f =>
          cases hp : parentIdOf store pid with
          | none => simp [iterParent, hp] at hiter
          | some y =>
              have hiter' : iterParent store k y = some id := by
                simpa [iterParent, hp] using hiter
              obtain ⟨m, hm, hmp⟩ :
                  ∃ m, findMenu store pid = some m ∧ m.parentID = some y := by
                unfold parentIdOf at hp
                cases hf : findMenu store pid with
                | none => rw [hf] at hp; cases hp
                | some m => rw [hf] at hp; exact ⟨m, rfl, hp⟩
              show isCircularReferenceFuel store (f + 1) pid id = true
              by_cases hy : y == id
              · simp [isCircularReferenceFuel, hm, hmp, hy]
              · have hrec : isCircularReferenceFuel store f y id = true := by
                  cases k with
                  | zero =>
                      have : y = id := by simpa [iterParent] using hiter'
                      exact absurd this (by simpa using hy)
                  | succ k' =>
                      exact ih y f (by omega) (by omega) hiter'
                simp [isCircularReferenceFuel, hm, hmp, hy, hrec]

theorem exists_short_chain (store : List Menu) (pid id k : Nat)
    (hne : pid ≠ id) (h1 : 1 ≤ k) (hiter : iterParent store k pid = some id) :
    ∃ j, 1 ≤ j ∧ j ≤ store.length ∧ iterParent store j pid = some id := by
  classical
  have hex : ∃ n, 1 ≤ n ∧ iterParent store n pid = some id := ⟨k, h1, hiter⟩
  set k0 := Nat.find hex with hk0
  have hP : 1 ≤ k0 ∧ iterParent store k0 pid = some id := Nat.find_spec hex
  refine ⟨k0, hP.1, ?_, hP.2⟩
  by_contra hbig
  push_neg at hbig
  have hsomeLe : ∀ j, j ≤ k0 → (iterParent store j pid).isSome := by
    intro j hj
    cases hc : iterParent store j pid with
    | some v => rfl
    | none =>
        exfalso
        have := iterParent_add store j (k0 - j) pid
        rw [Nat.add_sub_cancel' hj] at this
        rw [hP.2, hc] at this
        cases this
  have hinj : ∀ i j, i ≤ k0 → j ≤ k0 → i < j →
      iterParent store i pid ≠ iterParent store j pid := by
    intro i j _ hj hij heq
    have hcomp : iterParent store (i + (k0 - j)) pid = some id := by
      have hadd_i := iterParent_add store i (k0 - j) pid
      have hadd_j := iterParent_add store j (k0 - j) pid
      rw [Nat.add_sub_cancel' hj, hP.2] at hadd_j
      rw [hadd_i, heq, ← hadd_j]
    by_cases hjk : j = k0
    · subst hjk
      by_cases hi0 : i = 0
      · subst hi0
        simp only [Nat.sub_self, Nat.add_zero] at hcomp
        have : pid = id := by simpa [iterParent] using hcomp
        exact hne this
      · have hlt : i + (k0 - k0) < k0 := by omega
        have h1' : 1 ≤ i + (k0 - k0) := by omega
        exact Nat.find_min hex hlt ⟨h1', by simpa using hcomp⟩
    · have hjlt : j < k0 := lt_of_le_of_ne hj hjk
      have hlt : i + (k0 - j) < k0 := by omega
      have h1' : 1 ≤ i + (k0 - j) := by omega
      exact Nat.find_min hex hlt ⟨h1', hcomp⟩
  have hmemid : ∀ j, j < k0 → (iterParent store j pid).getD 0 ∈ store.map Menu.id := by
    intro j hj
    have hs := hsomeLe j (le_of_lt hj)
    cases hc : iterParent store j pid with
    | none => rw [hc] at hs; cases hs
    | some v =>
        have hnext := hsomeLe (j + 1) hj
        have hadd := iterParent_add store j 1 pid
        rw [hc] at hadd
        simp only [Option.some_bind] at hadd
        rw [hadd] at hnext
        have hpv : (parentIdOf store v).isSome := by
          cases hpv : parentIdOf store v with
          | none => rw [show iterParent store 1 v = none by simp [iterParent, hpv]] at hnext; cases hnext
          | some w => rfl
        have hfv : (findMenu store v).isSome := by
          unfold parentIdOf at hpv
          cases hfv : findMenu store v with
          | none => rw [hfv] at hpv; cases hpv
          | some m => rfl
        cases hfv' : findMenu store v with
        | none => rw [hfv'] at hfv; cases hfv
        | some m =>
            have hmmem : m ∈ store := List.mem_of_find?_eq_some hfv'
            have hmid : m.id = v := by simpa using List.find?_some hfv'
            simp only [Option.getD_some]
            exact List.mem_map.2 ⟨m, hmmem, hmid⟩
  have hnodup : ((List.range k0).map (fun j => (iterParent store j pid).getD 0)).Nodup := by
    refine List.Nodup.map_on ?_ (List.nodup_range k0)
    intro i hi j hj heq
    rcases List.mem_range.1 hi with hi'
    rcases List.mem_range.1 hj with hj'
    by_contra hne'
    rcases Nat.lt_or_ge i j with hij | hij
    · apply hinj i j (le_of_lt hi') (le_of_lt hj') hij
      have hsi := hsomeLe i (le_of_lt hi')
      have hsj := hsomeLe j (le_of_lt hj')
      cases hci : iterParent store i pid with
      | none => rw [hci] at hsi; cases hsi
      | some a =>
          cases hcj : iterParent store j pid with
          | none => rw [hcj] at hsj; cases hsj
          | some b =>
              rw [hci, hcj] at heq
              simp only [Option.getD_some] at heq
              rw [heq]
    · have hji : j < i := by omega
      apply hinj j i (le_of_lt hj') (le_of_lt hi') hji
      have hsi := hsomeLe i (le_of_lt hi')
      have hsj := hsomeLe j (le_of_lt hj')
      cases hci : iterParent store i pid with
      | none => rw [hci] at hsi; cases hsi
      | some a =>
          cases hcj : iterParent store j pid with
          | none => rw [hcj] at hsj; cases hsj
          | some b =>
              rw [hci, hcj] at heq
              simp only [Option.getD_some] at heq
              rw [heq]
  have hsub : ((List.range k0).map (fun j => (iterParent store j pid).getD 0))
      ⊆ store.map Menu.id := by
    intro x hx
    rcases List.mem_map.1 hx with ⟨j, hj, hval⟩
    rw [← hval]
    exact hmemid j (List.mem_range.1 hj)
  have hlen := List.Subperm.length_le (List.Nodup.subperm hnodup hsub)
  simp only [List.length_map, List.length_range] at hlen
  omega

/-- C4 amended: for every proper ancestor cycle — the node appears in the
parent chain strictly above the candidate parent, i.e. a cycle of chain
length at least 2 — `UpdateMenu` rejects the assignment with
CircularReference (400) and applies no mutation.  (The chain-length-1 case,
assigning a node as its own parent, is NOT rejected: see the
counterexample.) -/
theorem updateMenu_rejects_ancestor_cycle
    (store : List Menu) (id pid k : Nat) (req : MenuRequest) (menu : Menu)
    (hfound : findMenu store id = some menu)
    (hreq : req.parentID = some pid)
    (hne : pid ≠ id)
    (hk : 1 ≤ k)
    (hchain : iterParent store k pid = some id) :
    updateMenu store id req = (UpdateResult.circularReference, store)
    ∧ updateStatus UpdateResult.circularReference = 400 := by
  have hmenuid : menu.id = id := by simpa using List.find?_some hfound
  have hpid : (findMenu store pid).isSome := by
    cases k with
    | zero => omega
    | succ k' =>
        cases hp : parentIdOf store pid with
        | none => simp [iterParent, hp] at hchain
        | some y =>
            unfold parentIdOf at hp
            cases hf : findMenu store pid with
            | none => rw [hf] at hp; cases hp
            | some m => rfl
  obtain ⟨j, hj1, hjle, hjiter⟩ := exists_short_chain store pid id k hne hk hchain
  have hcirc : isCircularReference store pid id = true := by
    unfold isCircularReference
    exact circular_of_iterParent store id j pid store.length hj1 hjle hjiter
  refine ⟨?_, rfl⟩
  simp only [updateMenu, hfound, hreq]
  rw [hmenuid]
  rw [if_pos hne]
  cases hf : findMenu store pid with
  | none => rw [hf] at hpid; cases hpid
  | some pm =>
      simp only [hf]
      rw [if_pos hcirc]

/-- Witness for the amended C4: node 2 is a child of node 1; making node 2
the parent of node 1 (a length-2 cycle) is rejected with 400, store
unchanged. -/
theorem updateMenu_cycle_witness :
    updateMenu [⟨1, "a", "/a", "", none, 0, true, ""⟩,
                ⟨2, "b", "/b", "", some 1, 0, true, ""⟩] 1
        ⟨"a", "/a", "", some 2, 0, true, ""⟩
      = (UpdateResult.circularReference,
         [⟨1, "a", "/a", "", none, 0, true, ""⟩,
          ⟨2, "b", "/b", "", some 1, 0, true, ""⟩]) :=
  (updateMenu_rejects_ancestor_cycle
    [⟨1, "a", "/a", "", none, 0, true, ""⟩, ⟨2, "b", "/b", "", some 1, 0, true, ""⟩]
    1 2 1 ⟨"a", "/a", "", some 2, 0, true, ""⟩ ⟨1, "a", "/a", "", none, 0, true, ""⟩
    (by decide) rfl (by decide) (by decide) (by decide)).1

/-! ## MenuTree read path (handlers GetUserMenus) -/

/-- The tables `GetUserMenus` consults: `menus`, `roles`, `map_role_menu`. -/
structure MenuDB where
  menus : List Menu
  roles : List Role
  mapRoleMenu : List MapRoleMenu
deriving DecidableEq, Repr

/-- The `Preload("Roles")` relation of a menu row followed by the
name-collecting loop of `buildUserMenuResponse`: the names of all roles
related to the menu through `map_role_menu`. -/
def menuRoleNames (db : MenuDB) (menuId : Nat) : List String :=
  (db.roles.filter (fun r => db.mapRoleMenu.any (fun rm =>
    rm.roleId == r.id && rm.menuId == menuId))).map Role.name

/-- The JOIN filter of the `GetUserMenus`/`loadUserMenuChildren` queries:
does some `map_role_menu` row tie this menu to a role whose name is among
the caller's roles (`roles.name IN ?`)? -/
def menuGranted (db : MenuDB) (userRoles : List String) (menuId : Nat) : Bool :=
  db.mapRoleMenu.any (fun rm => rm.menuId == menuId &&
    db.roles.any (fun r => r.id == rm.roleId && userRoles.contains r.name))

/-- `ORDER BY menus.sequence ASC, menus.name ASC`. -/
def menuLe (a b : Menu) : Prop :=
  a.sequence < b.sequence ∨ (a.sequence = b.sequence ∧ a.name ≤ b.name)

instance : DecidableRel menuLe := fun a b => by
  unfold menuLe
  infer_instance

instance : IsTotal Menu menuLe := by
  constructor
  intro a b
  rcases lt_trichotomy a.sequence b.sequence with h | h | h
  · exact Or.inl (Or.inl h)
  · rcases le_total a.name b.name with hn | hn
    · exact Or.inl (Or.inr ⟨h, hn⟩)
    · exact Or.inr (Or.inr ⟨h.symm, hn⟩)
  · exact Or.inr (Or.inl h)

instance : IsTrans Menu menuLe := by
  constructor
  intro a b c hab hbc
  rcases hab with h1 | ⟨he1, hn1⟩
  · rcases hbc with h2 | ⟨he2, _⟩
    · exact Or.inl (h1.trans h2)
    · exact Or.inl (he2 ▸ h1)
  · rcases hbc with h2 | ⟨he2, hn2⟩
    · exact Or.inl (he1 ▸ h2)
    · exact Or.inr ⟨he1.trans he2, hn1.trans hn2⟩

/-- The shared shape of the root query of `GetUserMenus` (`pid = none`,
`parent_id IS NULL`) and of the child query of `loadUserMenuChildren`
(`pid = some id`): join-filter on the caller's role names, require
`is_active`, match the parent pointer, order by sequence then name,
`Distinct`. -/
def childMenusQuery (db : MenuDB) (userRoles : List String) (pid : Option Nat) :
    List Menu :=
  List.insertionSort menuLe (db.menus.filter (fun m =>
    m.parentID == pid && m.isActive && menuGranted db userRoles m.id))

/-- The in-memory tree `loadUserMenuChildren` produces (a menu row with its
recursively loaded, filtered children). -/
inductive MTree where
  | node (menu : Menu) (children : List MTree)

/-- Embeds `loadUserMenuChildren`: recursively re-query the accessible
children of each node.  The Go recursion has no depth bound (it would not
terminate on a cyclic parent relation); fuel makes it total, and
`GetUserMenus` below passes `db.menus.length` fuel, which is exhaustive on
acyclic stores because descent depth is bounded by the number of rows. -/
def loadUserMenuChildren (db : MenuDB) (userRoles : List String) :
    Nat → Menu → MTree
  | 0, m => MTree.node m []
  | fuel + 1, m =>
      MTree.node m ((childMenusQuery db userRoles (some m.id)).map
        (loadUserMenuChildren db userRoles fuel))

/-- Embeds `MenuResponse`; `roles = none` models the `omitempty` field
being absent from the JSON. -/
structure MenuResponse where
  id : Nat
  name : String
  path : String
  icon : String
  parentID : Option Nat
  sequence : Int
  isActive : Bool
  description : String
  children : List MenuResponse
  roles : Option (List String)

mutual

/-- Embeds `buildUserMenuResponse`: copy the row fields, recurse on
children, and attach the full role-name list only when `includeRoles`
(i.e. only for a super_admin caller). -/
def buildUserMenuResponse (db : MenuDB) (includeRoles : Bool) : MTree → MenuResponse
  | MTree.node m cs =>
      { id := m.id, name := m.name, path := m.path, icon := m.icon,
        parentID := m.parentID, sequence := m.sequence, isActive := m.isActive,
        description := m.description,
        children := buildUserMenuResponseList db includeRoles cs,
        roles := if includeRoles then some (menuRoleNames db m.id) else none }

/-- The response-building loop over a list of loaded subtrees. -/
def buildUserMenuResponseList (db : MenuDB) (includeRoles : Bool) :
    List MTree → List MenuResponse
  | [] => []
  | t :: ts =>
      buildUserMenuResponse db includeRoles t
        :: buildUserMenuResponseList db includeRoles ts

end

/-- Embeds `GetUserMenus`: empty role set short-circuits to an empty
response; otherwise detect `super_admin`, run the root query, load each
root's accessible children recursively, and build the responses. -/
def getUserMenus (db : MenuDB) (userRoles : List String) : List MenuResponse :=
  if userRoles.isEmpty then []
  else
    buildUserMenuResponseList db (userRoles.contains "super_admin")
      ((childMenusQuery db userRoles none).map
        (loadUserMenuChildren db userRoles db.menus.length))

/-- Sibling order on responses: sequence ascending, then name ascending. -/
def respLe (a b : MenuResponse) : Prop :=
  a.sequence < b.sequence ∨ (a.sequence = b.sequence ∧ a.name ≤ b.name)

instance : DecidableRel respLe := fun a b => by
  unfold respLe
  infer_instance

/-- Adjacent-pair ordering of a response list. -/
def pairsOrdered : List MenuResponse → Bool
  | [] => true
  | [_] => true
  | a :: b :: t => decide (respLe a b) && pairsOrdered (b :: t)

mutual

/-- `p` holds of a response node and, recursively, of every descendant. -/
def respAll (p : MenuResponse → Bool) : MenuResponse → Bool
  | MenuResponse.mk i n pa ic pid sq ia d children rs =>
      p (MenuResponse.mk i n pa ic pid sq ia d children rs)
        && respAllList p children

def respAllList (p : MenuResponse → Bool) : List MenuResponse → Bool
  | [] => true
  | r :: rs => respAll p r && respAllList p rs

end

theorem buildList_eq_map (db : MenuDB) (ir : Bool) (ts : List MTree) :
    buildUserMenuResponseList db ir ts = ts.map (buildUserMenuResponse db ir) := by
  induction ts with
  | nil => rfl
  | cons t ts ih => simp [buildUserMenuResponseList, ih]

theorem respAllList_eq_all (p : MenuResponse → Bool) (rs : List MenuResponse) :
    respAllList p rs = rs.all (respAll p) := by
  induction rs with
  | nil => rfl
  | cons r rs ih => simp [respAllList, ih]

theorem childMenusQuery_mem (db : MenuDB) (ur : List String) (pid : Option Nat)
    (c : Menu) (hc : c ∈ childMenusQuery db ur pid) :
    c.isActive = true ∧ menuGranted db ur c.id = true := by
  unfold childMenusQuery at hc
  have hc' : c ∈ db.menus.filter (fun m =>
      m.parentID == pid && m.isActive && menuGranted db ur m.id) :=
    (List.Perm.mem_iff (List.perm_insertionSort menuLe _)).1 hc
  have hp := List.mem_filter.1 hc'
  have : (c.parentID == pid) = true ∧ c.isActive = true ∧ menuGranted db ur c.id = true := by
    simpa [Bool.and_assoc, and_assoc] using hp.2
  exact ⟨this.2.1, this.2.2⟩

theorem childMenusQuery_sorted (db : MenuDB) (ur : List String) (pid : Option Nat) :
    List.Pairwise menuLe (childMenusQuery db ur pid) :=
  List.sorted_insertionSort menuLe _

theorem build_load_fields (db : MenuDB) (ir : Bool) (ur : List String)
    (fuel : Nat) (m : Menu) :
    (buildUserMenuResponse db ir (loadUserMenuChildren db ur fuel m)).sequence = m.sequence
    ∧ (buildUserMenuResponse db ir (loadUserMenuChildren db ur fuel m)).name = m.name
    ∧ (buildUserMenuResponse db ir (loadUserMenuChildren db ur fuel m)).id = m.id
    ∧ (buildUserMenuResponse db ir (loadUserMenuChildren db ur fuel m)).isActive = m.isActive
    ∧ (buildUserMenuResponse db ir (loadUserMenuChildren db ur fuel m)).roles
        = (if ir then some (menuRoleNames db m.id) else none) := by
  cases fuel <;> exact ⟨rfl, rfl, rfl, rfl, rfl⟩

theorem pairsOrdered_map (l : List Menu) (f : Menu → MenuResponse)
    (hf : ∀ m, (f m).sequence = m.sequence ∧ (f m).name = m.name)
    (hs : List.Pairwise menuLe l) :
    pairsOrdered (l.map f) = true := by
  induction l with
  | nil => rfl
  | cons a t ih =>
      rcases List.pairwise_cons.1 hs with ⟨hhead, htail⟩
      cases t with
      | nil => rfl
      | cons b t2 =>
          have hab : menuLe a b := hhead b (by simp)
          show (decide (respLe (f a) (f b)) && pairsOrdered (f b :: t2.map f)) = true
          rw [Bool.and_eq_true]
          constructor
          · rw [decide_eq_true_eq]
            unfold respLe
            rw [(hf a).1, (hf a).2, (hf b).1, (hf b).2]
            exact hab
          · exact ih htail

/-- Per-node property of a `GetUserMenus` response for a caller with roles
`ur`: the node is active, its granted role set meets the caller's roles,
its `roles` field is present with the full role-name list exactly when
`ir` (super_admin), and its children are ordered by sequence then name. -/
def respNodeOk (db : MenuDB) (ur : List String) (ir : Bool) (r : MenuResponse) : Bool :=
  r.isActive && menuGranted db ur r.id
    && (r.roles == (if ir then some (menuRoleNames db r.id) else none))
    && pairsOrdered r.children

theorem respAll_build (db : MenuDB) (ur : List String) (ir : Bool) (fuel : Nat)
    (m : Menu) (hact : m.isActive = true) (hgr : menuGranted db ur m.id = true) :
    respAll (respNodeOk db ur ir)
      (buildUserMenuResponse db ir (loadUserMenuChildren db ur fuel m)) = true := by
  induction fuel generalizing m with
  | zero =>
      simp [loadUserMenuChildren, buildUserMenuResponse, buildUserMenuResponseList,
            respAll, respAllList, respNodeOk, pairsOrdered, hact, hgr]
  | succ fuel ih =>
      have hstep : buildUserMenuResponse db ir (loadUserMenuChildren db ur (fuel + 1) m)
          = MenuResponse.mk m.id m.name m.path m.icon m.parentID m.sequence
              m.isActive m.description
              (buildUserMenuResponseList db ir
                ((childMenusQuery db ur (some m.id)).map
                  (loadUserMenuChildren db ur fuel)))
              (if ir then some (menuRoleNames db m.id) else none) := rfl
      rw [hstep]
      show (respNodeOk db ur ir (MenuResponse.mk m.id m.name m.path m.icon m.parentID
          m.sequence m.isActive m.description
          (buildUserMenuResponseList db ir ((childMenusQuery db ur (some m.id)).map
            (loadUserMenuChildren db ur fuel)))
          (if ir then some (menuRoleNames db m.id) else none))
        && respAllList (respNodeOk db ur ir)
            (buildUserMenuResponseList db ir ((childMenusQuery db ur (some m.id)).map
              (loadUserMenuChildren db ur fuel)))) = true
      rw [Bool.and_eq_true]
      constructor
      · unfold respNodeOk
        simp only [hact, hgr, Bool.true_and, beq_self_eq_true, Bool.true_and]
        rw [buildList_eq_map, List.map_map]
        apply pairsOrdered_map
        · intro c
          exact ⟨(build_load_fields db ir ur fuel c).1,
                 (build_load_fields db ir ur fuel c).2.1⟩
        · exact childMenusQuery_sorted db ur (some m.id)
      · rw [buildList_eq_map, List.map_map, respAllList_eq_all, List.all_eq_true]
        intro r hr
        rcases List.mem_map.1 hr with ⟨c, hcmem, hval⟩
        rcases childMenusQuery_mem db ur (some m.id) c hcmem with ⟨hact', hgr'⟩
        rw [← hval]
        exact ih c hact' hgr'

/-- C8: for a caller without `super_admin`, every node anywhere in the
`GetUserMenus` response is active, has a granted role set meeting the
caller's roles, and carries no `roles` field; sibling lists — the root list
and every `children` list — are ordered by sequence then name. -/
theorem getUserMenus_nonprivileged (db : MenuDB) (ur : List String)
    (hnp : "super_admin" ∉ ur) :
    respAllList (respNodeOk db ur false) (getUserMenus db ur) = true
    ∧ pairsOrdered (getUserMenus db ur) = true := by
  by_cases hemp : ur.isEmpty = true
  · have hnil : getUserMenus db ur = [] := by
      unfold getUserMenus
      rw [if_pos hemp]
    rw [hnil]
    exact ⟨rfl, rfl⟩
  · have hc : ur.contains "super_admin" = false := by
      cases hcc : ur.contains "super_admin" with
      | false => rfl
      | true =>
          have : "super_admin" ∈ ur := by simpa using hcc
          exact absurd this hnp
    have hmain : getUserMenus db ur
        = buildUserMenuResponseList db false
            ((childMenusQuery db ur none).map
              (loadUserMenuChildren db ur db.menus.length)) := by
      unfold getUserMenus
      rw [if_neg hemp, hc]
    rw [hmain]
    constructor
    · rw [buildList_eq_map, List.map_map, respAllList_eq_all, List.all_eq_true]
      intro r hr
      rcases List.mem_map.1 hr with ⟨c, hcmem, hval⟩
      rcases childMenusQuery_mem db ur none c hcmem with ⟨ha, hg⟩
      rw [← hval]
      exact respAll_build db ur false db.menus.length c ha hg
    · rw [buildList_eq_map, List.map_map]
      apply pairsOrdered_map
      · intro c
        exact ⟨(build_load_fields db false ur db.menus.length c).1,
               (build_load_fields db false ur db.menus.length c).2.1⟩
      · exact childMenusQuery_sorted db ur none

/-- Witness for C8: an "ops" caller over a store with two accessible roots
and one accessible child. -/
theorem getUserMenus_nonprivileged_witness :
    respAllList (respNodeOk ⟨[⟨1, "a", "/a", "", none, 0, true, ""⟩,
                              ⟨3, "c", "/c", "", none, 1, true, ""⟩,
                              ⟨2, "b", "/b", "", some 1, 0, true, ""⟩],
                             [⟨1, "ops"⟩],
                             [⟨1, 1⟩, ⟨1, 2⟩, ⟨1, 3⟩]⟩ ["ops"] false)
        (getUserMenus ⟨[⟨1, "a", "/a", "", none, 0, true, ""⟩,
                        ⟨3, "c", "/c", "", none, 1, true, ""⟩,
                        ⟨2, "b", "/b", "", some 1, 0, true, ""⟩],
                       [⟨1, "ops"⟩],
                       [⟨1, 1⟩, ⟨1, 2⟩, ⟨1, 3⟩]⟩ ["ops"]) = true
    ∧ pairsOrdered (getUserMenus ⟨[⟨1, "a", "/a", "", none, 0, true, ""⟩,
                                   ⟨3, "c", "/c", "", none, 1, true, ""⟩,
                                   ⟨2, "b", "/b", "", some 1, 0, true, ""⟩],
                                  [⟨1, "ops"⟩],
                                  [⟨1, 1⟩, ⟨1, 2⟩, ⟨1, 3⟩]⟩ ["ops"]) = true :=
  getUserMenus_nonprivileged ⟨[⟨1, "a", "/a", "", none, 0, true, ""⟩,
                               ⟨3, "c", "/c", "", none, 1, true, ""⟩,
                               ⟨2, "b", "/b", "", some 1, 0, true, ""⟩],
                              [⟨1, "ops"⟩],
                              [⟨1, 1⟩, ⟨1, 2⟩, ⟨1, 3⟩]⟩ ["ops"] (by decide)

/-- C5 counterexample: with caller roles exactly `["super_admin"]` over a
store whose two menus are both active roots, one granted to `super_admin`
and one granted only to `other`, the response contains only menu 1 — the
tree is NOT returned unfiltered as the claim states. -/
theorem getUserMenus_superadmin_not_unfiltered :
    ((getUserMenus ⟨[⟨1, "a", "/a", "", none, 0, true, ""⟩,
                     ⟨2, "b", "/b", "", none, 0, true, ""⟩],
                    [⟨1, "super_admin"⟩, ⟨2, "other"⟩],
                    [⟨1, 1⟩, ⟨2, 2⟩]⟩ ["super_admin"]).map (fun r => r.id) = [1])
    ∧ ([⟨1, "a", "/a", "", none, 0, true, ""⟩,
        ⟨2, "b", "/b", "", none, 0, true, ""⟩] : List Menu).all
        (fun m => m.isActive && (m.parentID == none)) = true := by
  decide

/-- C5 amended: when `super_admin` is among the caller's roles, every node
of the response carries its full granted-role list — but the tree is still
filtered exactly like for any other caller: every returned node is active
and its granted role set meets the caller's roles (the super_admin caller
is not exempt from the role/active filter). -/
theorem getUserMenus_superadmin_roles_included (db : MenuDB) (ur : List String)
    (hsa : "super_admin" ∈ ur) :
    respAllList (respNodeOk db ur true) (getUserMenus db ur) = true := by
  have hemp : ¬(ur.isEmpty = true) := by
    cases ur with
    | nil => cases hsa
    | cons a t => simp
  have hc : ur.contains "super_admin" = true := by simpa using hsa
  have hmain : getUserMenus db ur
      = buildUserMenuResponseList db true
          ((childMenusQuery db ur none).map
            (loadUserMenuChildren db ur db.menus.length)) := by
    unfold getUserMenus
    rw [if_neg hemp, hc]
  rw [hmain]
  rw [buildList_eq_map, List.map_map, respAllList_eq_all, List.all_eq_true]
  intro r hr
  rcases List.mem_map.1 hr with ⟨c, hcmem, hval⟩
  rcases childMenusQuery_mem db ur none c hcmem with ⟨ha, hg⟩
  rw [← hval]
  exact respAll_build db ur true db.menus.length c ha hg

/-- Witness for the amended C5: the super_admin caller of the example
store gets its accessible node with the roles field populated. -/
theorem getUserMenus_superadmin_witness :
    respAllList (respNodeOk ⟨[⟨1, "a", "/a", "", none, 0, true, ""⟩,
                              ⟨2, "b", "/b", "", none, 0, true, ""⟩],
                             [⟨1, "super_admin"⟩, ⟨2, "other"⟩],
                             [⟨1, 1⟩, ⟨2, 2⟩]⟩ ["super_admin"] true)
        (getUserMenus ⟨[⟨1, "a", "/a", "", none, 0, true, ""⟩,
                        ⟨2, "b", "/b", "", none, 0, true, ""⟩],
                       [⟨1, "super_admin"⟩, ⟨2, "other"⟩],
                       [⟨1, 1⟩, ⟨2, 2⟩]⟩ ["super_admin"]) = true :=
  getUserMenus_superadmin_roles_included ⟨[⟨1, "a", "/a", "", none, 0, true, ""⟩,
                                           ⟨2, "b", "/b", "", none, 0, true, ""⟩],
                                          [⟨1, "super_admin"⟩, ⟨2, "other"⟩],
                                          [⟨1, 1⟩, ⟨2, 2⟩]⟩ ["super_admin"] (by decide)
